import Mathlib

set_option autoImplicit false

/-!
Verification of `src/nef2fits/nef2fits.py` against its natural-language
specification.  The Python source is shallowly embedded below: pure helpers
become Lean functions on `List Char` / `List`-based data, the filesystem is an
explicit state record threaded through the pipeline and the watchdog event
handlers, and Python exceptions become `Except`-style results.
-/

/-! ## HeaderBuilder: ordered header merge

The source builds each per-channel header by seeding it with `EXTEND` and
`FILTER` cards and then calling astropy's `Header.extend(entries, strip=False,
update=True)` first on the camera/provenance layer (`header_common`) and then
on the caller-supplied `header_constants` (nef2fits.py lines 180-198).  With
`update=True` astropy processes the entries one by one, and its behaviour
splits on the card's keyword, which `Card` normalizes to its stripped,
uppercased form (keyword matching is case-insensitive):
a commentary keyword (`COMMENT`, `HISTORY`, or blank) is never updated in
place — the card is appended at the end unless a card with that keyword and
the very same value is already present (value-dedupe); any other keyword
goes through the assignment `self[keyword] = (value, comment)`, which
overwrites the first card carrying that keyword in place (preserving its
position) or appends when the keyword is absent.  `extendOne` embeds that
per-card behaviour and `mergeExtend` the left-to-right fold over an entry
list; `upsert` is the non-commentary assignment path on already-normalized
keywords.  Header values are heterogeneous in Python (strings, floats,
booleans); the merge only compares them for the commentary value-dedupe, so
they are a type parameter `V` with decidable equality.
-/

def everyOther {α : Type} : List α → List α
  | [] => []
  | [a] => [a]
  | a :: _ :: rest => a :: everyOther rest

def chanR {α : Type} (img : List (List α)) : List (List α) :=
  (everyOther img).map (fun row => everyOther row)

def chanG1 {α : Type} (img : List (List α)) : List (List α) :=
  (everyOther img).map (fun row => everyOther (row.drop 1))

def chanB {α : Type} (img : List (List α)) : List (List α) :=
  (everyOther (img.drop 1)).map (fun row => everyOther row)

def chanG2 {α : Type} (img : List (List α)) : List (List α) :=
  (everyOther (img.drop 1)).map (fun row => everyOther (row.drop 1))

/-- Element access in a grid: row `i`, column `j`. -/
def gridGet {α : Type} (g : List (List α)) (i j : Nat) : Option α :=
  g[i]?.bind (fun row => row[j]?)

theorem everyOther_getElem? {α : Type} : ∀ (l : List α) (i : Nat),
    (everyOther l)[i]? = l[2 * i]? := by
  intro l
  induction l using everyOther.induct with
  | case1 => intro i; rfl
  | case2 a =>
    intro i
    cases i with
    | zero => rfl
    | succ n =>
      rw [List.getElem?_eq_none (by simp [everyOther]),
        List.getElem?_eq_none (by simp; omega)]
  | case3 a b rest ih =>
    intro i
    cases i with
    | zero => simp [everyOther]
    | succ n =>
      have h2 : 2 * (n + 1) = 2 * n + 1 + 1 := by ring
      rw [show everyOther (a :: b :: rest) = a :: everyOther rest from rfl, h2,
        List.getElem?_cons_succ, List.getElem?_cons_succ, List.getElem?_cons_succ]
      exact ih n

theorem everyOther_drop_one_getElem? {α : Type} (l : List α) (i : Nat) :
    (everyOther (l.drop 1))[i]? = l[2 * i + 1]? := by
  rw [everyOther_getElem?, List.getElem?_drop]
  congr 1
  omega

theorem everyOther_tail_getElem? {α : Type} (l : List α) (i : Nat) :
    (everyOther l.tail)[i]? = l[2 * i + 1]? := by
  rw [← List.drop_one]
  exact everyOther_drop_one_getElem? l i

theorem everyOther_length {α : Type} : ∀ l : List α,
    (everyOther l).length = (l.length + 1) / 2 := by
  intro l
  induction l using everyOther.induct with
  | case1 => norm_num [everyOther]
  | case2 a => norm_num [everyOther]
  | case3 a b rest ih =>
    rw [show everyOther (a :: b :: rest) = a :: everyOther rest from rfl]
    simp only [List.length_cons]
    omega

theorem mem_everyOther {α : Type} : ∀ (l : List α) (x : α), x ∈ everyOther l → x ∈ l := by
  intro l
  induction l using everyOther.induct with
  | case1 => intro x hx; exact absurd hx (List.not_mem_nil x)
  | case2 a => intro x hx; exact hx
  | case3 a b rest ih =>
    intro x hx
    rw [show everyOther (a :: b :: rest) = a :: everyOther rest from rfl] at hx
    rcases List.mem_cons.1 hx with rfl | hx
    · exact List.mem_cons_self _ _
    · exact List.mem_cons_of_mem _ (List.mem_cons_of_mem _ (ih x hx))

/-- C3. On a source grid with `2*n` rows of `2*m` columns, the channel
splitter yields four grids of shape `(n, m)` with `R[i][j] = source[2i][2j]`,
`G1[i][j] = source[2i][2j+1]`, `B[i][j] = source[2i+1][2j]` and
`G2[i][j] = source[2i+1][2j+1]`; the element type is preserved by
construction (the four grids live over the same `α` as the source). -/
theorem channel_split_shape_and_values {α : Type} (img : List (List α)) (n m : Nat)
    (hrows : img.length = 2 * n) (hcols : ∀ row ∈ img, row.length = 2 * m) :
    ((chanR img).length = n ∧ ∀ r ∈ chanR img, r.length = m) ∧
    ((chanG1 img).length = n ∧ ∀ r ∈ chanG1 img, r.length = m) ∧
    ((chanB img).length = n ∧ ∀ r ∈ chanB img, r.length = m) ∧
    ((chanG2 img).length = n ∧ ∀ r ∈ chanG2 img, r.length = m) ∧
    (∀ i j, gridGet (chanR img) i j = gridGet img (2 * i) (2 * j)) ∧
    (∀ i j, gridGet (chanG1 img) i j = gridGet img (2 * i) (2 * j + 1)) ∧
    (∀ i j, gridGet (chanB img) i j = gridGet img (2 * i + 1) (2 * j)) ∧
    (∀ i j, gridGet (chanG2 img) i j = gridGet img (2 * i + 1) (2 * j + 1)) := by
  have hlen0 : (everyOther img).length = n := by
    rw [everyOther_length, hrows]; omega
  have hlen1 : (everyOther (img.drop 1)).length = n ∧ 0 < img.length ∨
      (everyOther (img.drop 1)).length = n ∧ n = 0 := by
    rw [everyOther_length, List.length_drop, hrows]
    rcases Nat.eq_zero_or_pos n with rfl | hn
    · right; constructor <;> omega
    · left; constructor <;> omega
  have hlen1' : (everyOther (img.drop 1)).length = n := by
    rcases hlen1 with ⟨h, _⟩ | ⟨h, _⟩ <;> exact h
  have hrow0 : ∀ row ∈ everyOther img, row.length = 2 * m := by
    intro row hr; exact hcols row (mem_everyOther _ _ hr)
  have hrow1 : ∀ row ∈ everyOther (img.drop 1), row.length = 2 * m := by
    intro row hr
    exact hcols row (List.drop_subset 1 img (mem_everyOther _ _ hr))
  refine ⟨⟨?_, ?_⟩, ⟨?_, ?_⟩, ⟨?_, ?_⟩, ⟨?_, ?_⟩, ?_, ?_, ?_, ?_⟩
  · simp [chanR, hlen0]
  · intro r hr
    obtain ⟨row, hrow, rfl⟩ := List.mem_map.1 hr
    rw [everyOther_length, hrow0 row hrow]; omega
  · simp [chanG1, hlen0]
  · intro r hr
    obtain ⟨row, hrow, rfl⟩ := List.mem_map.1 hr
    rw [everyOther_length, List.length_drop, hrow0 row hrow]; omega
  · simp only [chanB, List.length_map]
    exact hlen1'
  · intro r hr
    obtain ⟨row, hrow, rfl⟩ := List.mem_map.1 hr
    rw [everyOther_length, hrow1 row hrow]; omega
  · simp only [chanG2, List.length_map]
    exact hlen1'
  · intro r hr
    obtain ⟨row, hrow, rfl⟩ := List.mem_map.1 hr
    rw [everyOther_length, List.length_drop, hrow1 row hrow]; omega
  · intro i j
    simp only [gridGet, chanR, List.getElem?_map, everyOther_getElem?]
    cases img[2 * i]? with
    | none => rfl
    | some row => simp [everyOther_getElem?]
  · intro i j
    simp only [gridGet, chanG1, List.getElem?_map, everyOther_getElem?]
    cases img[2 * i]? with
    | none => rfl
    | some row => simp [everyOther_drop_one_getElem?, everyOther_tail_getElem?]
  · intro i j
    simp only [gridGet, chanB, List.getElem?_map, everyOther_drop_one_getElem?]
    cases img[2 * i + 1]? with
    | none => rfl
    | some row => simp [everyOther_getElem?]
  · intro i j
    simp only [gridGet, chanG2, List.getElem?_map, everyOther_drop_one_getElem?]
    cases img[2 * i + 1]? with
    | none => rfl
    | some row => simp [everyOther_drop_one_getElem?, everyOther_tail_getElem?]

/-- Witness for C3 at the concrete grid `[[1,2],[3,4]]` with `n = m = 1`. -/
theorem channel_split_witness :
    (chanR [[(1 : Nat), 2], [3, 4]]).length = 1 ∧
    gridGet (chanG2 [[(1 : Nat), 2], [3, 4]]) 0 0 =
      gridGet [[(1 : Nat), 2], [3, 4]] 1 1 := by
  have h := channel_split_shape_and_values [[(1 : Nat), 2], [3, 4]] 1 1
    (by decide) (by decide)
  exact ⟨h.1.1, h.2.2.2.2.2.2.2 0 0⟩

/-! ## ObjectClassifier

The source (nef2fits.py lines 156-166) applies
`re.search(r"(?:.+-)?([^_\s]+)(?:_.+)?", basename)` and takes group 1; if the
search returns no match the `.group(1)` call raises `AttributeError`, a
warning is printed and the full basename is used unmodified.  The name is
then normalized with `.upper().strip()` and scanned, in the fixed order
BIAS, FLAT, DARK, for the first substring hit (`break` on the first match);
no hit leaves the default `"OBJECT"`.

The regular-expression engine is embedded for this one pattern, with
Python's leftmost-match backtracking semantics: at each start position the
optional greedy prefix `(?:.+-)?` is tried first, with the `.+` preferring
the rightmost usable `-` (every char consumed by `.` must not be a newline);
after the prefix, the mandatory group `([^_\s]+)` greedily takes the maximal
run of non-underscore non-whitespace characters (it must be nonempty), and
the trailing optional `(?:_.+)?` can always match empty, so it never forces
backtracking of group 1.  `Char.isWhitespace` stands in for the `\s` class
and `Char.toUpper` for `str.upper` (both agree on ASCII, the relevant
alphabet here).
-/

def isGoodChar (c : Char) : Bool := !(c == '_' || c.isWhitespace)

def notNl (c : Char) : Bool := !(c == '\n')

/-- Match the pattern suffix `([^_\s]+)(?:_.+)?` at the head of `cs`,
returning group 1: the maximal nonempty run of `[^_\s]` characters. -/
def matchBody (cs : List Char) : Option (List Char) :=
  let g := cs.takeWhile isGoodChar
  if g.isEmpty then none else some g

/-- Suffixes following every viable split of `(?:.+-)` at the head of `cs`:
each candidate sits after a `-` at index `k ≥ 1` whose preceding characters
all match `.` (no newline).  Ordered by decreasing `k`, the greedy
backtracking order of `.+`. -/
def dashCandidates (cs : List Char) : List (List Char) :=
  ((List.range cs.length).filterMap (fun k =>
    match cs.drop k with
    | '-' :: rest => if 1 ≤ k ∧ (cs.take k).all notNl then some rest else none
    | _ => none)).reverse

/-- Match the whole pattern anchored at the head of `cs`, returning group 1. -/
def matchAt (cs : List Char) : Option (List Char) :=
  match (dashCandidates cs).filterMap matchBody with
  | g :: _ => some g
  | [] => matchBody cs

/-- Group 1 of `re.search` of the default pattern: try each start position
from the left, full backtracking at each. -/
def reSearchGroup1 : List Char → Option (List Char)
  | [] => none
  | c :: rest =>
    match matchAt (c :: rest) with
    | some g => some g
    | none => reSearchGroup1 rest

/-- Object name: group 1 of the search, or the whole basename when the
search fails (the `AttributeError` fallback branch). -/
def object_name_chars (basename : List Char) : List Char :=
  match reSearchGroup1 basename with
  | some g => g
  | none => basename

/-- True exactly when the fallback branch prints its warning. -/
def regexWarning (basename : List Char) : Bool :=
  (reSearchGroup1 basename).isNone

def pyUpper (cs : List Char) : List Char := cs.map Char.toUpper

def pyStrip (cs : List Char) : List Char :=
  ((cs.dropWhile Char.isWhitespace).reverse.dropWhile Char.isWhitespace).reverse

/-- Normalized name used for classification only: `.upper().strip()`. -/
def object_name_std (cs : List Char) : List Char := pyStrip (pyUpper cs)

/-- Python's substring test `needle in hay`. -/
def containsSub (hay needle : List Char) : Bool :=
  hay.tails.any (fun t => needle.isPrefixOf t)

/-- The classification loop: first substring hit wins, `break` on it;
`"OBJECT"` when no token matches. -/
def imagetypLoop : List (List Char) → List Char → List Char
  | [], _ => ("OBJECT").data
  | s :: rest, name => if containsSub name s then s else imagetypLoop rest name

/-- Imagetyp derived from a basename: classify the normalized object name in
the fixed order BIAS, FLAT, DARK. -/
def imagetyp_of (basename : List Char) : List Char :=
  imagetypLoop [("BIAS").data, ("FLAT").data, ("DARK").data]
    (object_name_std (object_name_chars basename))

/-- C6. The classifier scans the normalized (uppercased, trimmed) object name
in the fixed order BIAS, FLAT, DARK for the first substring match; the first
hit sets imagetyp, no match leaves OBJECT, and in particular a normalized
name containing both BIAS and DARK yields BIAS. -/
theorem imagetyp_first_match (basename : List Char) :
    (imagetyp_of basename =
      (if containsSub (object_name_std (object_name_chars basename)) (("BIAS").data)
       then ("BIAS").data
       else if containsSub (object_name_std (object_name_chars basename)) (("FLAT").data)
       then ("FLAT").data
       else if containsSub (object_name_std (object_name_chars basename)) (("DARK").data)
       then ("DARK").data
       else ("OBJECT").data)) ∧
    (containsSub (object_name_std (object_name_chars basename)) (("BIAS").data) = true →
     containsSub (object_name_std (object_name_chars basename)) (("DARK").data) = true →
     imagetyp_of basename = ("BIAS").data) := by
  constructor
  · rfl
  · intro h1 _
    simp [imagetyp_of, imagetypLoop, h1]

/-- Witness for C6: the basename `m31-biasdark_x` has normalized object name
`BIASDARK`, which contains both BIAS and DARK; the scan-order tie-break gives
BIAS. -/
theorem imagetyp_first_match_witness :
    imagetyp_of (("m31-biasdark_x").data) = ("BIAS").data :=
  (imagetyp_first_match (("m31-biasdark_x").data)).2 (by decide) (by decide)

/-- C9. When the pattern's group 1 does not match (the search fails), the
classifier warns and uses the full basename unmodified as the object name,
and classification always produces a result (it is a total function, so the
conversion continues); the structureless basename `snapshot` yields object
name `snapshot` and imagetyp `OBJECT`. -/
theorem classifier_fallback (basename : List Char) :
    (reSearchGroup1 basename = none →
      object_name_chars basename = basename ∧ regexWarning basename = true) ∧
    object_name_chars (("snapshot").data) = ("snapshot").data ∧
    imagetyp_of (("snapshot").data) = ("OBJECT").data := by
  refine ⟨fun h => ?_, by decide, by decide⟩
  constructor
  · simp [object_name_chars, h]
  · simp [regexWarning, h]

/-- Witness for C9: `___` defeats the pattern (group 1 needs a character
outside `[_\s]`), so the object name falls back to `___` with a warning. -/
theorem classifier_fallback_witness :
    object_name_chars (("___").data) = ("___").data ∧
      regexWarning (("___").data) = true :=
  (classifier_fallback (("___").data)).1 (by decide)

/-! ## Output path derivation

The source derives the destination as `root, ext = os.path.splitext(path)`
followed by `os.path.join(prefix, root + ".fits")` (nef2fits.py lines
152-154), makes the output directories with
`os.makedirs(os.path.dirname(output_fname), exist_ok=True)` when a prefix is
configured (line 204), and writes with `hdul.writeto(output_fname,
overwrite=overwrite)` (line 205).  `splitext`, `joinPath`, `basenameOf` and
`dirnameOf` embed the POSIX `os.path` helpers the source calls.
-/

/-- Index of the last occurrence of `c`, counting from `start`. -/
def lastIdxAux (c : Char) : List Char → Nat → Option Nat
  | [], _ => none
  | a :: rest, i =>
    match lastIdxAux c rest (i + 1) with
    | some j => some j
    | none => if a = c then some i else none

/-- Index of the last occurrence of `c` in `cs`, as Python `str.rfind`
(with `none` for the `-1` case). -/
def lastIdx (c : Char) (cs : List Char) : Option Nat :=
  lastIdxAux c cs 0

/-- Python `os.path.splitext` (POSIX): split at the last dot of the
basename, unless every character of the basename before that dot is itself a
dot (leading-dot files have no extension). -/
def splitext (p : List Char) : List Char × List Char :=
  match lastIdx '.' p with
  | none => (p, [])
  | some dot =>
    let sepSucc : Nat :=
      match lastIdx '/' p with
      | none => 0
      | some s => s + 1
    if sepSucc ≤ dot ∧ ((p.drop sepSucc).take (dot - sepSucc)).any (fun c => c != '.')
    then (p.take dot, p.drop dot)
    else (p, [])

/-- Python `os.path.join` (POSIX, two arguments): an absolute second part
discards the first; otherwise a single separator is inserted unless the
first part is empty or already ends in one. -/
def joinPath (a b : List Char) : List Char :=
  if b.head? = some '/' then b
  else if a = [] ∨ a.getLast? = some '/' then a ++ b
  else a ++ '/' :: b

/-- Python `os.path.basename` (POSIX): everything after the last slash. -/
def basenameOf (p : List Char) : List Char :=
  match lastIdx '/' p with
  | none => p
  | some s => p.drop (s + 1)

/-- Python `os.path.dirname` (POSIX): everything before the last slash,
with trailing slashes stripped unless the result is all slashes. -/
def dirnameOf (p : List Char) : List Char :=
  match lastIdx '/' p with
  | none => []
  | some s =>
    if (p.take (s + 1)).all (fun c => c == '/') then p.take (s + 1)
    else ((p.take (s + 1)).reverse.dropWhile (fun c => c == '/')).reverse

/-- The source-to-target extension swap: `root + ".fits"`. -/
def fitsSwap (path : List Char) : List Char :=
  (splitext path).1 ++ (".fits").data

/-- The derived output path: `os.path.join(prefix, root + ".fits")`. -/
def output_fname (pfx : String) (path : String) : String :=
  String.mk (joinPath pfx.data (fitsSwap path.data))

/-- Split a path on `/`, keeping empty segments (Python `str.split("/")`). -/
def splitSlash : List Char → List (List Char)
  | [] => [[]]
  | c :: cs =>
    if c = '/' then [] :: splitSlash cs
    else (c :: (splitSlash cs).headD []) :: (splitSlash cs).tail

/-- A path segment is structure-bearing unless it is empty or `.`. -/
def segKeep (s : List Char) : Bool :=
  !(s.isEmpty || s == ['.'])

/-- Normalized directory structure of a path: its `/`-separated segments
with empty and `.` segments dropped. -/
def segsOf (cs : List Char) : List (List Char) :=
  (splitSlash cs).filter segKeep

theorem splitSlash_ne_nil (cs : List Char) : splitSlash cs ≠ [] := by
  cases cs with
  | nil => simp [splitSlash]
  | cons c cs => by_cases h : c = '/' <;> simp [splitSlash, h]

theorem splitSlash_append_slash (a b : List Char) :
    splitSlash (a ++ '/' :: b) = splitSlash a ++ splitSlash b := by
  induction a with
  | nil => simp [splitSlash]
  | cons c a ih =>
    by_cases h : c = '/'
    · simp [splitSlash, h, ih]
    · obtain ⟨x, xs, hx⟩ : ∃ x xs, splitSlash a = x :: xs := by
        cases hsa : splitSlash a with
        | nil => exact absurd hsa (splitSlash_ne_nil a)
        | cons x xs => exact ⟨x, xs, rfl⟩
      rw [List.cons_append]
      rw [show splitSlash (c :: (a ++ '/' :: b)) =
          (c :: (splitSlash (a ++ '/' :: b)).headD []) :: (splitSlash (a ++ '/' :: b)).tail from by
        simp [splitSlash, h]]
      rw [show splitSlash (c :: a) =
          (c :: (splitSlash a).headD []) :: (splitSlash a).tail from by
        simp [splitSlash, h]]
      rw [ih, hx]
      simp

theorem segsOf_append_slash (a b : List Char) :
    segsOf (a ++ '/' :: b) = segsOf a ++ segsOf b := by
  simp [segsOf, splitSlash_append_slash, List.filter_append]

theorem segsOf_append_slash_right (a : List Char) :
    segsOf (a ++ ['/']) = segsOf a := by
  rw [show (['/'] : List Char) = '/' :: [] from rfl, segsOf_append_slash]
  simp [segsOf, splitSlash, segKeep]

theorem joinPath_nil_left (b : List Char) : joinPath [] b = b := by
  unfold joinPath
  by_cases hb : b.head? = some '/'
  · rw [if_pos hb]
  · rw [if_neg hb, if_pos (Or.inl rfl)]
    rfl

theorem segsOf_joinPath (a b : List Char) (hb : b.head? ≠ some '/') :
    segsOf (joinPath a b) = segsOf a ++ segsOf b := by
  unfold joinPath
  rw [if_neg hb]
  by_cases ha : a = [] ∨ a.getLast? = some '/'
  · rw [if_pos ha]
    rcases ha with rfl | ha
    · simp [segsOf, splitSlash, segKeep]
    · have hne : a ≠ [] := by
        intro hc
        rw [hc] at ha
        simp at ha
      have hlast : a.getLast hne = '/' := by
        have := List.getLast?_eq_getLast a hne
        rw [this] at ha
        exact Option.some_injective _ ha
      have hsplit : a = a.dropLast ++ ['/'] := by
        conv_lhs => rw [← List.dropLast_append_getLast hne]
        rw [hlast]
      rw [hsplit, List.append_assoc,
        show (['/'] : List Char) ++ b = '/' :: b from rfl,
        segsOf_append_slash, segsOf_append_slash_right]
  · rw [if_neg ha]
    exact segsOf_append_slash a b

theorem head?_append_of_ne {p q : List Char} (hp : p.head? ≠ some '/')
    (hq : q.head? ≠ some '/') : (p ++ q).head? ≠ some '/' := by
  cases p with
  | nil => simpa using hq
  | cons c cs => simpa using hp

theorem head?_take_of_ne {p : List Char} (n : Nat) (hp : p.head? ≠ some '/') :
    (p.take n).head? = none ∨ (p.take n).head? = p.head? := by
  cases p with
  | nil => left; simp
  | cons c cs =>
    cases n with
    | zero => left; rfl
    | succ nn => right; rfl

theorem head?_fitsSwap {p : List Char} (hp : p.head? ≠ some '/') :
    (fitsSwap p).head? ≠ some '/' := by
  have hq : ((".fits").data : List Char).head? ≠ some '/' := by decide
  have hsp : (splitext p).1 = p ∨ ∃ nn : Nat, (splitext p).1 = p.take nn := by
    unfold splitext
    cases lastIdx '.' p with
    | none => exact Or.inl rfl
    | some dot =>
      dsimp only
      split
      · exact Or.inr ⟨dot, rfl⟩
      · exact Or.inl rfl
  unfold fitsSwap
  rcases hsp with hh | ⟨nn, hh⟩ <;> rw [hh]
  · exact head?_append_of_ne hp hq
  · rcases head?_take_of_ne nn hp with hz | hz
    · have : p.take nn = [] := by
        cases hk : p.take nn with
        | nil => rfl
        | cons x xs => rw [hk] at hz; exact absurd hz (by simp)
      rw [this]
      simp only [List.nil_append]
      exact hq
    · refine head?_append_of_ne ?_ hq
      rw [hz]
      exact hp

/-! ## Filesystem model, conversion pipeline effect, watch handlers

The filesystem is an explicit state: a file map (path to an opaque content
tag, `Nat`) plus the list of directories created by `os.makedirs`.  The
pipeline body `nef2fits` (lines 123-206) is embedded as a state transition
returning the filesystem after the call together with either the output
filename or the raised error: `decodeFailure` stands for any per-file fatal
error raised before the write (rawpy/piexif decode failure, missing required
EXIF field), and `outputExists` for the `OSError` that the astropy
collaborator's `writeto` raises when the destination exists and `overwrite`
is false — in that case `writeto` does not touch the existing file.
`dOk` abstracts whether decoding this file succeeds and `conv` the opaque
content of the FITS file the call would produce.
-/

structure FS where
  files : List (String × Nat)
  dirs : List String
  deriving DecidableEq, Repr

inductive ConvError
  | decodeFailure
  | outputExists
  deriving DecidableEq, Repr

/-- Content stored at path `p`, if the file exists. -/
def fsGet (fs : FS) (p : String) : Option Nat :=
  (fs.files.find? (fun kv => kv.1 == p)).map (fun kv => kv.2)

/-- Create or overwrite the file at `p`. -/
def fsSet (fs : FS) (p : String) (v : Nat) : FS :=
  { fs with files := (p, v) :: fs.files.filter (fun kv => !(kv.1 == p)) }

/-- Delete the file at `p` (`os.remove`). -/
def fsRemove (fs : FS) (p : String) : FS :=
  { fs with files := fs.files.filter (fun kv => !(kv.1 == p)) }

/-- Record a directory creation (`os.makedirs(..., exist_ok=True)`). -/
def mkdirs (fs : FS) (d : String) : FS :=
  { fs with dirs := d :: fs.dirs }

/-- The conversion pipeline `nef2fits(path, ...)` as a filesystem
transition.  Mirrors the source order: decode (`rawpy.imread`, `exif_info`)
happens before any filesystem effect; `os.makedirs` runs only when a prefix
is configured; `writeto` fails without touching anything when the
destination exists and overwriting is disabled, else it writes the output
and the call returns the output filename. -/
def nef2fits (pfx : String) (ow : Bool) (dOk : Bool) (conv : Nat) (path : String)
    (fs : FS) : FS × Except ConvError String :=
  if dOk = false then (fs, .error .decodeFailure)
  else
    let out := output_fname pfx path
    let fs1 := if pfx = "" then fs else mkdirs fs (String.mk (dirnameOf out.data))
    if ow = false ∧ (fsGet fs1 out).isSome then (fs1, .error .outputExists)
    else (fsSet fs1 out conv, .ok out)

/-- The `on_moved` handler (lines 217-230): dispatch on the extension of the
source path; delete the sibling path `src_root + ".fits"` if it exists; then
convert the destination path.  The second component is the outcome: `some
dest` when the pipeline ran (and succeeded) on `dest`, `none` when the event
was ignored, or the uncaught pipeline error. -/
def on_moved (pfx : String) (ow : Bool) (src dest : String) (dOk : Bool) (conv : Nat)
    (fs : FS) : FS × Except ConvError (Option String) :=
  if (splitext src.data).2 = (".nef").data then
    let old_fits := String.mk ((splitext src.data).1 ++ (".fits").data)
    let fs1 := if (fsGet fs old_fits).isSome then fsRemove fs old_fits else fs
    let r := nef2fits pfx ow dOk conv dest fs1
    (r.1, r.2.map (fun _ => some dest))
  else (fs, .ok none)

/-- The `on_created` handler (lines 232-240): dispatch on the extension,
convert the created path.  No try/except anywhere in the handler. -/
def on_created (pfx : String) (ow : Bool) (path : String) (dOk : Bool) (conv : Nat)
    (fs : FS) : FS × Except ConvError (Option String) :=
  if (splitext path.data).2 = (".nef").data then
    let r := nef2fits pfx ow dOk conv path fs
    (r.1, r.2.map (fun _ => some path))
  else (fs, .ok none)

/-- Filesystem events delivered by the watchdog observer, with the decode
outcome and produced content of the named file attached as oracle data. -/
inductive WEvent
  | created (path : String) (dOk : Bool) (conv : Nat)
  | moved (src dest : String) (dOk : Bool) (conv : Nat)
  | deleted (path : String)
  | modified (path : String)
  deriving DecidableEq, Repr

/-- One handler dispatch.  `on_deleted` only logs and `on_modified` is a
no-op, so neither touches the filesystem nor can fail. -/
def dispatch (pfx : String) (ow : Bool) : WEvent → FS → FS × Except ConvError Unit
  | .created p dOk conv, fs =>
    ((on_created pfx ow p dOk conv fs).1,
      (on_created pfx ow p dOk conv fs).2.map (fun _ => ()))
  | .moved s d dOk conv, fs =>
    ((on_moved pfx ow s d dOk conv fs).1,
      (on_moved pfx ow s d dOk conv fs).2.map (fun _ => ()))
  | .deleted _, fs => (fs, .ok ())
  | .modified _, fs => (fs, .ok ())

/-- The watchdog dispatch thread.  The handler methods contain no
try/except, and `main`'s try/except wraps only the `watch(...)` call on the
main thread, so an exception raised inside a handler propagates out of the
dispatch loop and kills the dispatch thread: the remaining events are never
handled.  The Boolean records whether the thread is still alive. -/
def runEngine (pfx : String) (ow : Bool) : List WEvent → FS → FS × Bool
  | [], fs => (fs, true)
  | e :: es, fs =>
    match dispatch pfx ow e fs with
    | (fs1, .ok _) => runEngine pfx ow es fs1
    | (fs1, .error _) => (fs1, false)

theorem find?_filter_of_imp {α : Type} (l : List α) (p q : α → Bool)
    (h : ∀ x, p x = true → q x = true) :
    (l.filter q).find? p = l.find? p := by
  induction l with
  | nil => rfl
  | cons x l ih =>
    cases hq : q x with
    | true =>
      rw [List.filter_cons_of_pos hq]
      cases hp : p x with
      | true => rw [List.find?_cons_of_pos _ hp, List.find?_cons_of_pos _ hp]
      | false =>
        rw [List.find?_cons_of_neg _ (by simp [hp]), List.find?_cons_of_neg _ (by simp [hp]), ih]
    | false =>
      have hp : p x = false := by
        cases hpx : p x with
        | true => exact absurd (h x hpx) (by simp [hq])
        | false => rfl
      rw [List.filter_cons_of_neg (by simp [hq]), List.find?_cons_of_neg _ (by simp [hp]), ih]

theorem fsGet_fsSet (fs : FS) (p q : String) (v : Nat) :
    fsGet (fsSet fs p v) q = if q = p then some v else fsGet fs q := by
  by_cases hq : q = p
  · subst hq
    simp [fsGet, fsSet]
  · rw [if_neg hq]
    have hbeq : (p == q) = false := by
      cases hb : p == q with
      | true => exact absurd (eq_of_beq hb).symm hq
      | false => rfl
    unfold fsGet fsSet
    dsimp only
    rw [List.find?_cons_of_neg _ (by simp [hbeq])]
    rw [find?_filter_of_imp]
    intro kv hkv
    have : kv.1 = q := eq_of_beq hkv
    simp [this, Ne.symm, hq]

theorem fsGet_fsRemove_self (fs : FS) (p : String) :
    fsGet (fsRemove fs p) p = none := by
  unfold fsGet fsRemove
  dsimp only
  rw [show (fs.files.filter (fun kv => !(kv.1 == p))).find? (fun kv => kv.1 == p) = none from ?_]
  · rfl
  · rw [List.find?_eq_none]
    intro x hx hpx
    have := List.of_mem_filter hx
    rw [hpx] at this
    exact absurd this (by decide)

theorem fsGet_fsRemove_other (fs : FS) (p q : String) (h : q ≠ p) :
    fsGet (fsRemove fs p) q = fsGet fs q := by
  unfold fsGet fsRemove
  dsimp only
  rw [find?_filter_of_imp]
  intro kv hkv
  have h1 : kv.1 = q := eq_of_beq hkv
  have h2 : (kv.1 == p) = false := by
    cases hb : kv.1 == p with
    | true => exact absurd ((eq_of_beq hb).symm.trans h1).symm h
    | false => rfl
  simp [h2]

theorem fsGet_mkdirs (fs : FS) (d q : String) : fsGet (mkdirs fs d) q = fsGet fs q := rfl

/-- Helper: conditional delete (`if os.path.exists(p): os.remove(p)`) leaves
no file at `p`. -/
theorem fsGet_condRemove (fs : FS) (p : String) :
    fsGet (if (fsGet fs p).isSome then fsRemove fs p else fs) p = none := by
  by_cases h : (fsGet fs p).isSome = true
  · rw [if_pos h]
    exact fsGet_fsRemove_self fs p
  · rw [if_neg h]
    exact Option.not_isSome_iff_eq_none.1 h

/-- Helper: a successful pipeline run (overwrite enabled, decode ok) writes
`conv` at the derived output path and returns that path. -/
theorem nef2fits_ok_parts (pfx : String) (conv : Nat) (path : String) (fs : FS) :
    fsGet (nef2fits pfx true true conv path fs).1 (output_fname pfx path) = some conv ∧
    (nef2fits pfx true true conv path fs).2 = .ok (output_fname pfx path) := by
  constructor
  · rw [show (nef2fits pfx true true conv path fs).1 =
        fsSet (if pfx = "" then fs
          else mkdirs fs (String.mk (dirnameOf (output_fname pfx path).data)))
          (output_fname pfx path) conv from rfl]
    rw [fsGet_fsSet, if_pos rfl]
  · rfl

/-- C7 fails as stated: on the absolute input path `/a/b.nef` with prefix
`baz`, `os.path.join` discards the configured prefix entirely, so the output
is not rebased under the prefix. -/
theorem output_rebase_counterexample :
    output_fname "baz" "/a/b.nef" = "/a/b.fits" ∧
    segsOf (output_fname "baz" "/a/b.nef").data ≠
      segsOf ("baz").data ++ segsOf (fitsSwap ("/a/b.nef").data) := by
  decide

/-- C7 amended.  The output path strips the source extension
(`os.path.splitext`) and substitutes `.fits`, joined under the prefix by
`os.path.join`; for every relative input path (one not starting with `/`)
the normalized segment structure of the result is the prefix's segments
followed by the input's extension-swapped segments, so the relative
directory structure is preserved under the prefix (an absolute input path
instead makes `os.path.join` discard the prefix); and whenever a prefix is
configured and decode reaches the write, the missing output directories
(the output's dirname) are created. -/
theorem output_rebase_relative (pfx path : String) (hrel : path.data.head? ≠ some '/') :
    (output_fname pfx path).data = joinPath pfx.data (fitsSwap path.data) ∧
    segsOf (output_fname pfx path).data = segsOf pfx.data ++ segsOf (fitsSwap path.data) ∧
    (∀ (ow : Bool) (conv : Nat) (fs : FS), pfx ≠ "" →
      (nef2fits pfx ow true conv path fs).1.dirs =
        String.mk (dirnameOf (output_fname pfx path).data) :: fs.dirs) := by
  refine ⟨rfl, ?_, ?_⟩
  · exact segsOf_joinPath _ _ (head?_fitsSwap hrel)
  · intro ow conv fs hpfx
    simp only [nef2fits, if_neg (show ¬(true = false) by decide), if_neg hpfx]
    split
    · rfl
    · rfl

/-- Witness for C7 amended at prefix `baz` and relative path
`./foo/00.nef`. -/
theorem output_rebase_relative_witness :
    segsOf (output_fname "baz" "./foo/00.nef").data =
      segsOf ("baz").data ++ segsOf (fitsSwap ("./foo/00.nef").data) ∧
    (nef2fits "baz" true true 4 "./foo/00.nef" ⟨[], []⟩).1.dirs =
      [String.mk (dirnameOf (output_fname "baz" "./foo/00.nef").data)] :=
  ⟨(output_rebase_relative "baz" "./foo/00.nef" (by decide)).2.1,
   (output_rebase_relative "baz" "./foo/00.nef" (by decide)).2.2 true 4 ⟨[], []⟩ (by decide)⟩

/-- C4. With the overwrite flag false and the derived destination already
present, the conversion leaves the destination file unchanged (the write
fails before clobbering), and when decode succeeds the reported failure is
OutputExists; either way the invocation fails for this file only. -/
theorem overwrite_false_no_clobber (pfx path : String) (dOk : Bool) (conv : Nat) (fs : FS)
    (hex : (fsGet fs (output_fname pfx path)).isSome = true) :
    fsGet (nef2fits pfx false dOk conv path fs).1 (output_fname pfx path) =
      fsGet fs (output_fname pfx path) ∧
    (dOk = true → (nef2fits pfx false dOk conv path fs).2 = .error .outputExists) := by
  cases dOk with
  | false => exact ⟨rfl, fun h => absurd h (by decide)⟩
  | true =>
    have hfs1 : fsGet (if pfx = "" then fs
        else mkdirs fs (String.mk (dirnameOf (output_fname pfx path).data)))
        (output_fname pfx path) = fsGet fs (output_fname pfx path) := by
      split <;> rfl
    have hcond : True ∧
        (fsGet (if pfx = "" then fs
          else mkdirs fs (String.mk (dirnameOf (output_fname pfx path).data)))
          (output_fname pfx path)).isSome = true := ⟨trivial, by rw [hfs1]; exact hex⟩
    constructor
    · simp only [nef2fits, if_neg (show ¬(true = false) by decide)]
      rw [if_pos hcond]
      exact hfs1
    · intro _
      simp only [nef2fits, if_neg (show ¬(true = false) by decide)]
      rw [if_pos hcond]

/-- Witness for C4: converting `a.nef` with overwrite disabled while
`a.fits` holds content `5` leaves the content untouched and reports
OutputExists. -/
theorem overwrite_false_no_clobber_witness :
    fsGet (nef2fits "" false true 9 "a.nef" ⟨[("a.fits", 5)], []⟩).1
        (output_fname "" "a.nef") =
      fsGet ⟨[("a.fits", 5)], []⟩ (output_fname "" "a.nef") ∧
    (nef2fits "" false true 9 "a.nef" ⟨[("a.fits", 5)], []⟩).2 =
      .error .outputExists :=
  ⟨(overwrite_false_no_clobber "" "a.nef" true 9 ⟨[("a.fits", 5)], []⟩ (by decide)).1,
   (overwrite_false_no_clobber "" "a.nef" true 9 ⟨[("a.fits", 5)], []⟩ (by decide)).2 rfl⟩

/-- C5 fails as stated: with prefix `baz` configured, the previously
produced output for `a.nef` lives at `baz/a.fits` (the path the pipeline
derives from `a.nef`), but `on_moved` deletes only the unprefixed sibling
`a.fits`, so after handling the Moved event the old output still exists. -/
theorem moved_old_output_survives_with_prefix :
    fsGet (on_moved "baz" true "a.nef" "b.nef" true 7 ⟨[("baz/a.fits", 5)], []⟩).1
      (output_fname "baz" "a.nef") = some 5 := by
  decide

/-- C5 amended.  On Moved(src, dest) with a `.nef` source the handler
deletes the unprefixed sibling path `src_root + ".fits"` when present and
then runs the pipeline on dest; when no prefix is configured (so that
sibling is exactly the output path derived from src), the destination
decodes successfully, overwrite is enabled (the handler's CLI default), and
the two derived output paths differ, the old output no longer exists after
handling and the new output exists at the path derived from dest. -/
theorem moved_deletes_old_and_converts_dest (src dest : String) (conv : Nat) (fs : FS)
    (hext : (splitext src.data).2 = (".nef").data)
    (hdiff : output_fname "" src ≠ output_fname "" dest) :
    fsGet (on_moved "" true src dest true conv fs).1 (output_fname "" src) = none ∧
    fsGet (on_moved "" true src dest true conv fs).1 (output_fname "" dest) = some conv ∧
    (on_moved "" true src dest true conv fs).2 = .ok (some dest) := by
  have holds : output_fname "" src = String.mk ((splitext src.data).1 ++ (".fits").data) := by
    unfold output_fname fitsSwap
    rw [show ("" : String).data = [] from rfl, joinPath_nil_left]
  have hrun : on_moved "" true src dest true conv fs =
      (fsSet (if (fsGet fs (String.mk ((splitext src.data).1 ++ (".fits").data))).isSome
          then fsRemove fs (String.mk ((splitext src.data).1 ++ (".fits").data)) else fs)
        (output_fname "" dest) conv, Except.ok (some dest)) := by
    unfold on_moved
    rw [if_pos hext]
    rfl
  refine ⟨?_, ?_, ?_⟩
  · rw [hrun]
    show fsGet (fsSet _ (output_fname "" dest) conv) (output_fname "" src) = none
    rw [fsGet_fsSet, if_neg hdiff, holds]
    exact fsGet_condRemove fs _
  · rw [hrun]
    show fsGet (fsSet _ (output_fname "" dest) conv) (output_fname "" dest) = some conv
    rw [fsGet_fsSet, if_pos rfl]
  · rw [hrun]

/-- Witness for C5 amended: moving `a.nef` to `b.nef` with prior output
`a.fits` present removes `a.fits` and produces `b.fits`. -/
theorem moved_deletes_old_and_converts_dest_witness :
    fsGet (on_moved "" true "a.nef" "b.nef" true 7 ⟨[("a.fits", 5)], []⟩).1
        (output_fname "" "a.nef") = none ∧
    fsGet (on_moved "" true "a.nef" "b.nef" true 7 ⟨[("a.fits", 5)], []⟩).1
        (output_fname "" "b.nef") = some 7 ∧
    (on_moved "" true "a.nef" "b.nef" true 7 ⟨[("a.fits", 5)], []⟩).2 =
      .ok (some "b.nef") :=
  moved_deletes_old_and_converts_dest "a.nef" "b.nef" 7 ⟨[("a.fits", 5)], []⟩
    (by decide) (by decide)

/-- C10. The Moved handler dispatches solely on the extension of the source
path: a non-`.nef` source leaves the filesystem untouched and converts
nothing (whatever the destination's extension), while a `.nef` source is
converted from the destination path — on success the output appears at the
path derived from dest and the handler reports dest as the converted file. -/
theorem moved_dispatch_by_src_ext (pfx : String) (ow dOk : Bool) (src dest : String)
    (conv : Nat) (fs : FS) :
    ((splitext src.data).2 ≠ (".nef").data →
      on_moved pfx ow src dest dOk conv fs = (fs, .ok none)) ∧
    ((splitext src.data).2 = (".nef").data → dOk = true → ow = true →
      fsGet (on_moved pfx ow src dest dOk conv fs).1 (output_fname pfx dest) = some conv ∧
      (on_moved pfx ow src dest dOk conv fs).2 = .ok (some dest)) := by
  constructor
  · intro hne
    unfold on_moved
    rw [if_neg hne]
  · intro hext hdOk how
    subst hdOk
    subst how
    have hrun : on_moved pfx true src dest true conv fs =
        ((nef2fits pfx true true conv dest
            (if (fsGet fs (String.mk ((splitext src.data).1 ++ (".fits").data))).isSome
             then fsRemove fs (String.mk ((splitext src.data).1 ++ (".fits").data))
             else fs)).1,
          Except.map (fun _ => some dest)
            (nef2fits pfx true true conv dest
              (if (fsGet fs (String.mk ((splitext src.data).1 ++ (".fits").data))).isSome
               then fsRemove fs (String.mk ((splitext src.data).1 ++ (".fits").data))
               else fs)).2) := by
      unfold on_moved
      rw [if_pos hext]
    rw [hrun]
    refine ⟨(nef2fits_ok_parts pfx conv dest _).1, ?_⟩
    rw [(nef2fits_ok_parts pfx conv dest _).2]
    rfl

/-- Witness for C10: a `doc.txt` to `x.nef` move converts nothing; an
`a.nef` to `b.jpg` move converts the destination, producing `b.fits`. -/
theorem moved_dispatch_by_src_ext_witness :
    on_moved "" true "doc.txt" "x.nef" true 3 ⟨[], []⟩ = (⟨[], []⟩, .ok none) ∧
    fsGet (on_moved "" true "a.nef" "b.jpg" true 3 ⟨[], []⟩).1
      (output_fname "" "b.jpg") = some 3 :=
  ⟨(moved_dispatch_by_src_ext "" true true "doc.txt" "x.nef" 3 ⟨[], []⟩).1 (by decide),
   ((moved_dispatch_by_src_ext "" true true "a.nef" "b.jpg" 3 ⟨[], []⟩).2
      (by decide) rfl rfl).1⟩

/-- C2, the code's behaviour at the failing input: the first Created event
names a `.nef` file whose decode raises; the handler has no try/except, so
the exception escapes `on_created`, kills the dispatch thread, and the
second, perfectly convertible `.nef` creation is never handled — its output
never appears and the engine is no longer running. -/
theorem watch_event_failure_kills_engine :
    (runEngine "" true
        [WEvent.created ("a.nef") false 0, WEvent.created ("b.nef") true 7]
        ⟨[], []⟩).2 = false ∧
    fsGet (runEngine "" true
        [WEvent.created ("a.nef") false 0, WEvent.created ("b.nef") true 7]
        ⟨[], []⟩).1 (output_fname "" "b.nef") = none := by
  decide

/-! ## MetadataTranslator: the EXIF type-decode table and `fraction`

The source's `fraction` (nef2fits.py lines 24-29) returns `num/den` when the
tuple has exactly two entries and `float("nan")` otherwise; `exif_types`
(lines 41-54) maps TIFF type codes to translators, sending rational (5) and
signed-rational (10) to `fraction`.  piexif delivers rationals as integer
pairs; Python's `num/den` on integers raises `ZeroDivisionError` when the
denominator is zero.  Exact rationals stand in for IEEE doubles — rounding
is irrelevant to every claim here.
-/

inductive PyFloat
  | val (q : Rat)
  | nan
  deriving DecidableEq, Repr

inductive PyError
  | zeroDivisionError
  deriving DecidableEq, Repr

/-- The `fraction` helper: `num/den` for a 2-tuple (raising
`ZeroDivisionError` when `den = 0`, as Python integer division does), and
`float("nan")` for any other length. -/
def fraction (tup : List Int) : Except PyError PyFloat :=
  match tup with
  | [num, den] =>
    if den = 0 then .error .zeroDivisionError
    else .ok (.val ((num : Rat) / (den : Rat)))
  | _ => .ok .nan

inductive ExifTranslator
  | tInteger
  | tDecode
  | tFraction
  | tBytes
  | tFloat
  deriving DecidableEq, Repr

/-- The `exif_types` dict: TIFF type code to translator; `none` models the
`KeyError` a lookup of an unlisted code would raise. -/
def exif_types (code : Nat) : Option ExifTranslator :=
  match code with
  | 1 => some .tInteger
  | 2 => some .tDecode
  | 3 => some .tInteger
  | 4 => some .tInteger
  | 5 => some .tFraction
  | 6 => some .tInteger
  | 7 => some .tBytes
  | 8 => some .tInteger
  | 9 => some .tInteger
  | 10 => some .tFraction
  | 11 => some .tFloat
  | 12 => some .tFloat
  | _ => none

/-- C8 fails as stated: rational (5) and signed-rational (10) fields are
translated by `fraction`, and the two-element pair `(1, 0)` — not malformed
in arity — raises `ZeroDivisionError` instead of yielding nan, so the
translation can raise. -/
theorem fraction_zero_den_raises :
    exif_types 5 = some ExifTranslator.tFraction ∧
    exif_types 10 = some ExifTranslator.tFraction ∧
    fraction [1, 0] = .error PyError.zeroDivisionError := by
  refine ⟨rfl, rfl, ?_⟩
  rw [show fraction [1, 0] =
      if (0 : Int) = 0 then Except.error PyError.zeroDivisionError
      else Except.ok (PyFloat.val ((1 : Rat) / (0 : Rat))) from rfl, if_pos rfl]

/-- C8 amended.  Rational and signed-rational fields are translated by
`fraction`, which returns the floating ratio `num/den` for a two-element
pair with nonzero denominator, yields not-a-number for a tuple whose length
is not two, and raises `ZeroDivisionError` (rather than yielding nan) for a
pair with denominator zero. -/
theorem fraction_behaviour (tup : List Int) :
    exif_types 5 = some ExifTranslator.tFraction ∧
    exif_types 10 = some ExifTranslator.tFraction ∧
    (tup.length ≠ 2 → fraction tup = .ok PyFloat.nan) ∧
    (∀ num den : Int, tup = [num, den] → den ≠ 0 →
      fraction tup = .ok (PyFloat.val ((num : Rat) / (den : Rat)))) ∧
    (∀ num : Int, tup = [num, 0] → fraction tup = .error PyError.zeroDivisionError) := by
  refine ⟨rfl, rfl, ?_, ?_, ?_⟩
  · intro hlen
    rcases tup with _ | ⟨x, _ | ⟨y, _ | ⟨z, rest⟩⟩⟩
    · rfl
    · rfl
    · exact absurd rfl hlen
    · rfl
  · intro num den htup hden
    subst htup
    simp [fraction, hden]
  · intro num htup
    subst htup
    simp [fraction]

/-- Witness for C8 amended: `(3, 4)` yields the ratio `3/4` and the
one-element tuple `(5,)` yields nan. -/
theorem fraction_behaviour_witness :
    fraction [3, 4] = .ok (PyFloat.val ((3 : Rat) / (4 : Rat))) ∧
    fraction [5] = .ok PyFloat.nan :=
  ⟨(fraction_behaviour [3, 4]).2.2.2.1 3 4 rfl (by decide),
   (fraction_behaviour [5]).2.2.1 (by decide)⟩
